import Mathlib

/-!
Verification of the goengine event-sourcing runtime against its
natural-language specification. The Go source is shallowly embedded:
pure functions become Lean functions, database effects become explicit
state passing, fallible code returns `Except`/`Option`.
-/

namespace Goengine

/-- Error values of the embedded code. Go errors are values compared by
identity; each named error of the source becomes a constructor, `db` stands
for an error produced by the database backend and `composite` for the
`fmt.Errorf("error one: %s\nerror two: %s", ...)` pair built in
`EventStore.Create`. -/
inductive GoError where
  | emptyStreamName
  | tableNameEmpty
  | tableAlreadyExists
  | noCreateTableQueries
  | insufficientMoney
  | db (msg : String)
  | composite (rollbackErr originalErr : GoError)
  deriving DecidableEq, Repr

/-- Go `strings.ToLower` restricted to ASCII, which covers every stream name
considered here: an upper-case ASCII letter is shifted down by 32, any other
character is unchanged. -/
def goToLower (c : Char) : Char :=
  if 65 ≤ c.toNat ∧ c.toNat ≤ 90 then Char.ofNat (c.toNat + 32) else c

/-- The character class `[a-z0-9_]` of the regular expressions in
`SingleStreamStrategy.GenerateTableName`. -/
def allowedChar (c : Char) : Bool :=
  (97 ≤ c.toNat && c.toNat ≤ 122) || (48 ≤ c.toNat && c.toNat ≤ 57) || c == '_'

/-- Embedding of `regNotAllowed.ReplaceAllString(name, "")` with pattern
`[^a-z0-9_]+`: every maximal run of characters outside the class is replaced
by the empty string, which deletes every disallowed character. -/
def removeNotAllowed : List Char → List Char
  | [] => []
  | c :: cs => if allowedChar c then c :: removeNotAllowed cs else removeNotAllowed cs

/-- Embedding of `regLastUnderScores.ReplaceAllString(name, "")` with pattern
`_+$`: the maximal run of underscores at the end of the string is deleted. -/
def removeTrailingUnderscores : List Char → List Char
  | [] => []
  | c :: cs =>
    match removeTrailingUnderscores cs with
    | [] => if c == '_' then [] else [c]
    | r => c :: r

/-- Embedding of `SingleStreamStrategy.GenerateTableName`
(`src/eventstore/postgres/aggregate_stream_strategy.go` lines 104-125):
reject the empty stream name, otherwise lower-case, delete the characters
outside `[a-z0-9_]`, delete trailing underscores and add the `events_`
prefix. -/
def GenerateTableName (streamName : String) : Except GoError String :=
  if streamName = "" then .error .emptyStreamName
  else .ok ("events_" ++ String.mk
    (removeTrailingUnderscores (removeNotAllowed (streamName.data.map goToLower))))

/-- Embedding of `EventStore.tableName`
(`src/eventstore/postgres/eventstore.go` lines 248-257): resolve through the
strategy, then guard against an empty table name. -/
def tableNameOf (s : String) : Except GoError String :=
  match GenerateTableName s with
  | .error e => .error e
  | .ok tableName => if tableName.length = 0 then .error .tableNameEmpty else .ok tableName

theorem removeNotAllowed_eq_filter (l : List Char) :
    removeNotAllowed l = l.filter allowedChar := by
  induction l with
  | nil => rfl
  | cons c cs ih =>
    by_cases h : allowedChar c <;> simp [removeNotAllowed, List.filter, h, ih]

theorem dropWhile_append_of_eq_nil (p : Char → Bool) (l₁ l₂ : List Char)
    (h : l₁.dropWhile p = []) : (l₁ ++ l₂).dropWhile p = l₂.dropWhile p := by
  induction l₁ with
  | nil => rfl
  | cons a l ih =>
    by_cases ha : p a
    · simp only [List.cons_append, List.dropWhile_cons, ha, if_true]
      exact ih (by simpa [List.dropWhile_cons, ha] using h)
    · simp [List.dropWhile_cons, ha] at h

theorem dropWhile_append_of_ne_nil (p : Char → Bool) (l₁ l₂ : List Char)
    (h : l₁.dropWhile p ≠ []) :
    (l₁ ++ l₂).dropWhile p = l₁.dropWhile p ++ l₂ := by
  induction l₁ with
  | nil => exact absurd rfl h
  | cons a l ih =>
    by_cases ha : p a
    · simp only [List.cons_append, List.dropWhile_cons, ha, if_true]
      exact ih (by simpa [List.dropWhile_cons, ha] using h)
    · simp [List.dropWhile_cons, ha]

theorem removeTrailingUnderscores_eq_dropWhile (l : List Char) :
    removeTrailingUnderscores l = (l.reverse.dropWhile (fun c => c == '_')).reverse := by
  induction l with
  | nil => rfl
  | cons c cs ih =>
    by_cases hnil : removeTrailingUnderscores cs = []
    · have hd : cs.reverse.dropWhile (fun c => c == '_') = [] := by
        have := hnil
        rw [ih] at this
        simpa using congrArg List.reverse this
      rw [removeTrailingUnderscores, hnil, List.reverse_cons,
        dropWhile_append_of_eq_nil _ _ _ hd]
      by_cases hc : c == '_' <;> simp [List.dropWhile, hc]
    · have hd : cs.reverse.dropWhile (fun c => c == '_') ≠ [] := by
        intro hcontra
        apply hnil
        rw [ih, hcontra, List.reverse_nil]
      rw [List.reverse_cons, dropWhile_append_of_ne_nil _ _ _ hd, List.reverse_append]
      simp only [List.reverse_cons, List.reverse_nil, List.nil_append, List.cons_append,
        List.nil_append]
      rw [removeTrailingUnderscores]
      rw [ih] at hnil ⊢
      match hr : (cs.reverse.dropWhile (fun c => c == '_')).reverse with
      | [] => exact absurd hr hnil
      | a :: r => rfl

/-- C5: `GenerateTableName` rejects the empty stream name with the
`EmptyStreamName` error; for every other stream name it lower-cases the
name, removes every character outside `[a-z0-9_]`, removes trailing
underscores and adds the prefix `events_`; in particular `events-main/EU`
is mapped to `events_eventsmaineu`. -/
theorem generateTableName_normalizes :
    GenerateTableName "" = .error GoError.emptyStreamName
    ∧ (∀ s : String, s ≠ "" →
        GenerateTableName s = .ok ("events_" ++ String.mk
          ((((s.data.map goToLower).filter allowedChar).reverse.dropWhile
              (fun c => c == '_')).reverse)))
    ∧ GenerateTableName "events-main/EU" = .ok "events_eventsmaineu" := by
  refine ⟨rfl, ?_, rfl⟩
  intro s hs
  rw [GenerateTableName, if_neg hs, removeNotAllowed_eq_filter,
    removeTrailingUnderscores_eq_dropWhile]

/-- C5 witness: the normalization evaluated on the concrete stream name
`User-Stream!`. -/
theorem generateTableName_normalizes_witness :
    ("User-Stream!" : String) ≠ ""
    ∧ GenerateTableName "User-Stream!" = .ok "events_userstream" := by
  refine ⟨by decide, ?_⟩
  rw [generateTableName_normalizes.2.1 "User-Stream!" (by decide)]
  rfl

/-- C10: with the single stream strategy a successful table-name resolution
always yields a name of the form `events_<rest>`, hence a non-empty one, and
`EventStore.tableName` can only fail with the `EmptyStreamName` error of the
strategy: its `ErrTableNameEmpty` branch is unreachable. -/
theorem tableNameOf_never_empty :
    ∀ s : String,
      (∀ e, tableNameOf s = .error e → e = GoError.emptyStreamName)
      ∧ (∀ t, tableNameOf s = .ok t → (∃ r, t = "events_" ++ r) ∧ t ≠ "") := by
  intro s
  by_cases hs : s = ""
  · subst hs
    constructor
    · intro e he
      have h : GoError.emptyStreamName = e := by
        simpa [tableNameOf, GenerateTableName] using he
      exact h.symm
    · intro t ht
      simp [tableNameOf, GenerateTableName] at ht
  · have hgen := generateTableName_normalizes.2.1 s hs
    have h7 : ("events_" : String).length = 7 := rfl
    have hlen : ("events_" ++ String.mk
        ((((s.data.map goToLower).filter allowedChar).reverse.dropWhile
            (fun c => c == '_')).reverse)).length ≠ 0 := by
      rw [String.length_append, h7]
      omega
    constructor
    · intro e he
      rw [tableNameOf, hgen] at he
      simp only [if_neg hlen] at he
      exact Except.noConfusion he
    · intro t ht
      rw [tableNameOf, hgen] at ht
      simp only [if_neg hlen] at ht
      have ht' := (Except.ok.injEq _ _).mp ht
      subst ht'
      refine ⟨⟨_, rfl⟩, ?_⟩
      intro hcontra
      exact hlen (by rw [hcontra]; rfl)

/-- C10 witness: table-name resolution on the concrete stream name `a-b`. -/
theorem tableNameOf_never_empty_witness :
    (∃ r, ("events_ab" : String) = "events_" ++ r) ∧ ("events_ab" : String) ≠ "" :=
  (tableNameOf_never_empty "a-b").2 "events_ab" rfl

/-! ## Stream projector: processNotification (src/driver/sql/postgres/projector_stream.go) -/

/-- The loop bound of `StreamProjector.processNotification`: Go's
`math.MaxInt16`, that is `2 ^ 15 - 1 = 32767`. -/
def maxInt16 : Nat := 32767

/-- The internal error action returned by `resolveErrorAction` and switched
on in `processNotification`. -/
inductive ErrorAction where
  | errorRetry
  | errorIgnore
  | errorFail
  | errorFallthrough
  deriving DecidableEq, Repr

/-- Modelled from the spec: the published action codes of the user-supplied
`ProjectionErrorCallback` (`Action ∈ {Retry, Ignore, Fail, Fallthrough}`).
The callback's concrete Go type is an integer-like enumeration whose
declaration is not among the given files, so unrecognized codes are the
remaining natural numbers. -/
def projectionRetry : Nat := 0

/-- Modelled from the spec: the `Ignore` action code. -/
def projectionIgnore : Nat := 1

/-- Modelled from the spec: the `Fail` action code. -/
def projectionFail : Nat := 2

/-- Modelled from the spec: the `Fallthrough` action code. -/
def projectionFallthrough : Nat := 3

/-- Modelled from the spec: `resolveErrorAction`, whose definition is not
among the given files (only its caller `processNotification` is). It passes
the error to the user-supplied callback and maps the returned action to the
internal `ErrorAction`; per the spec, "unrecognized actions are treated as
`Fail`". -/
def resolveErrorAction (handler : GoError → Nat) (err : GoError) : ErrorAction :=
  if handler err = projectionRetry then .errorRetry
  else if handler err = projectionIgnore then .errorIgnore
  else if handler err = projectionFail then .errorFail
  else if handler err = projectionFallthrough then .errorFallthrough
  else .errorFail

/-- The fatal error returned by `processNotification` when the retry bound is
exhausted (`errors.Errorf("seriously %d retries is enough! ...", math.MaxInt16)`). -/
def retryCeilingError : GoError :=
  .db "seriously 32767 retries is enough! maybe it is time to fix your projection or error handling code?"

/-- Embedding of the `for i := 0; i < math.MaxInt16; i++` loop of
`StreamProjector.processNotification` (lines 144-170). `fuel` is the number
of remaining iterations (initially `maxInt16`) and `i` the iteration index;
`execute i` is the outcome of the i-th `executor.Execute(ctx, notification)`
call on the same notification (`none` for success) and `handler` the
user-supplied `ProjectionErrorCallback`. The result is the returned error
(`none` for a `nil` return) paired with the number of `Execute` calls made. -/
def processLoop (execute : Nat → Option GoError) (handler : GoError → Nat) :
    Nat → Nat → Option GoError × Nat
  | 0, _ => (some retryCeilingError, 0)
  | fuel + 1, i =>
    match execute i with
    | none => (none, 1)
    | some err =>
      match resolveErrorAction handler err with
      | .errorRetry =>
        let r := processLoop execute handler fuel (i + 1)
        (r.1, r.2 + 1)
      | .errorIgnore => (none, 1)
      | .errorFail => (some err, 1)
      | .errorFallthrough => (some err, 1)

/-- Embedding of `StreamProjector.processNotification` for one notification:
the loop starting at `i = 0` with `maxInt16` iterations available. -/
def processNotification (execute : Nat → Option GoError) (handler : GoError → Nat) :
    Option GoError × Nat :=
  processLoop execute handler maxInt16 0

theorem processLoop_succ (execute : Nat → Option GoError) (handler : GoError → Nat)
    (fuel i : Nat) :
    processLoop execute handler (fuel + 1) i =
      match execute i with
      | none => (none, 1)
      | some err =>
        match resolveErrorAction handler err with
        | .errorRetry =>
          let r := processLoop execute handler fuel (i + 1)
          (r.1, r.2 + 1)
        | .errorIgnore => (none, 1)
        | .errorFail => (some err, 1)
        | .errorFallthrough => (some err, 1) := rfl

theorem processLoop_always_retry (execute : Nat → Option GoError)
    (handler : GoError → Nat) (hex : ∀ j, (execute j).isSome)
    (hh : ∀ e, handler e = projectionRetry) :
    ∀ fuel i, processLoop execute handler fuel i = (some retryCeilingError, fuel) := by
  intro fuel
  induction fuel with
  | zero => intro i; rfl
  | succ n ih =>
    intro i
    rw [processLoop_succ]
    match hj : execute i with
    | none =>
      have hcontra := hex i
      rw [hj] at hcontra
      exact absurd hcontra (by simp)
    | some err =>
      have hres : resolveErrorAction handler err = .errorRetry := by
        simp [resolveErrorAction, hh]
      simp only [hres]
      rw [ih (i + 1)]

/-- C1 (amended): if the executor fails on every attempt and the error
callback always answers `Retry`, `processNotification` re-invokes
`executor.Execute` on the same notification exactly `maxInt16 = 2^15 - 1`
times — one less than the `2^15` the claim states — and then returns the
fatal retry-ceiling error instead of success. -/
theorem processNotification_retry_ceiling (execute : Nat → Option GoError)
    (handler : GoError → Nat) (hex : ∀ j, (execute j).isSome)
    (hh : ∀ e, handler e = projectionRetry) :
    processNotification execute handler = (some retryCeilingError, maxInt16)
    ∧ maxInt16 = 2 ^ 15 - 1 :=
  ⟨processLoop_always_retry execute handler hex hh maxInt16 0, rfl⟩

/-- C1 witness: the ceiling behaviour on the concrete always-failing
executor and always-retry callback. -/
theorem processNotification_retry_ceiling_witness :
    processNotification (fun _ => some (.db "boom")) (fun _ => projectionRetry)
      = (some retryCeilingError, maxInt16) :=
  (processNotification_retry_ceiling (fun _ => some (.db "boom"))
    (fun _ => projectionRetry) (fun _ => rfl) (fun _ => rfl)).1

/-- C1 counterexample: on an always-failing executor with an always-`Retry`
callback, the number of `executor.Execute` attempts is `32767`, strictly
below the `2^15` floor the claim asserts for the ceiling. -/
theorem processNotification_retry_ceiling_counterexample :
    (processNotification (fun _ => some (.db "boom")) (fun _ => projectionRetry)).2 = 32767
    ∧ ¬ (2 ^ 15 ≤
        (processNotification (fun _ => some (.db "boom")) (fun _ => projectionRetry)).2) := by
  have h := processLoop_always_retry (fun _ => some (.db "boom"))
    (fun _ => projectionRetry) (fun _ => rfl) (fun _ => rfl) maxInt16 0
  rw [processNotification, h]
  exact ⟨rfl, by decide⟩

/-- C6: when the fold fails and the error callback answers with an action
code that is none of `Retry`, `Ignore`, `Fail` or `Fallthrough`, the action
resolves to `Fail` and `processNotification` returns the original error to
the caller after that single `Execute` call. -/
theorem processNotification_unknown_action_fails (execute : Nat → Option GoError)
    (handler : GoError → Nat) (err : GoError) (n : Nat)
    (h0 : execute 0 = some err) (hh : handler err = n)
    (h1 : n ≠ projectionRetry) (h2 : n ≠ projectionIgnore)
    (h3 : n ≠ projectionFail) (h4 : n ≠ projectionFallthrough) :
    resolveErrorAction handler err = .errorFail
    ∧ processNotification execute handler = (some err, 1) := by
  have hres : resolveErrorAction handler err = .errorFail := by
    rw [resolveErrorAction]
    simp only [hh, if_neg h1, if_neg h2, if_neg h3, if_neg h4]
  refine ⟨hres, ?_⟩
  have hm : maxInt16 = 32766 + 1 := rfl
  rw [processNotification, hm, processLoop_succ, h0]
  simp only [hres]

/-- C6 witness: an error callback answering the unrecognized action code `9`
makes `processNotification` return the original error. -/
theorem processNotification_unknown_action_fails_witness :
    resolveErrorAction (fun _ => 9) (.db "boom") = .errorFail
    ∧ processNotification (fun _ => some (.db "boom")) (fun _ => 9)
        = (some (.db "boom"), 1) :=
  processNotification_unknown_action_fails (fun _ => some (.db "boom")) (fun _ => 9)
    (.db "boom") 9 rfl rfl (by decide) (by decide) (by decide) (by decide)

/-! ## Single stream strategy: PrepareData and the event store's AppendTo -/

/-- The message envelope (`messaging.Message`): identity, opaque payload (as
handed to the payload converter), ordered metadata map and creation time. -/
structure Message where
  uuid : String
  payload : String
  metadata : List (String × String)
  createdAt : Nat
  deriving DecidableEq, Repr

/-- A database parameter value as produced by `PrepareData`, one constructor
per column kind of the event table. -/
inductive Value where
  | uuid (u : String)
  | str (s : String)
  | bytes (b : String)
  | json (j : String)
  | time (t : Nat)
  deriving DecidableEq, Repr

/-- Embedding of `SingleStreamStrategy.ColumnNames`. -/
def ColumnNames : List String := ["event_id", "event_name", "payload", "metadata", "created_at"]

/-- Embedding of the loop of `SingleStreamStrategy.PrepareData` (lines
79-101), instrumented with the number of `converter.ConvertPayload` calls:
for each message, convert the payload to a `(typeName, bytes)` pair, JSON
encode the metadata through `marshal`, and emit the five column values in
declared order; any failure aborts with that error. -/
def prepareDataGo (convert : String → Except GoError (String × String))
    (marshal : List (String × String) → Except GoError String) :
    List Message → Except GoError (List Value) × Nat
  | [] => (.ok [], 0)
  | msg :: rest =>
    match convert msg.payload with
    | .error e => (.error e, 1)
    | .ok pd =>
      match marshal msg.metadata with
      | .error e => (.error e, 1)
      | .ok meta =>
        match prepareDataGo convert marshal rest with
        | (.error e, c) => (.error e, c + 1)
        | (.ok out, c) =>
          (.ok (Value.uuid msg.uuid :: Value.str pd.1 :: Value.bytes pd.2 ::
              Value.json meta :: Value.time msg.createdAt :: out), c + 1)

/-- Embedding of `SingleStreamStrategy.PrepareData`: the flat parameter
vector (or the first error). -/
def PrepareData (convert : String → Except GoError (String × String))
    (marshal : List (String × String) → Except GoError String)
    (messages : List Message) : Except GoError (List Value) :=
  (prepareDataGo convert marshal messages).1

/-- The number of `converter.ConvertPayload` invocations `PrepareData` makes. -/
def prepareDataConvertCalls (convert : String → Except GoError (String × String))
    (marshal : List (String × String) → Except GoError String)
    (messages : List Message) : Nat :=
  (prepareDataGo convert marshal messages).2

/-- The five column values of one message's row, in the declared column
order `(event_id, event_name, payload, metadata, created_at)`, given the
functions describing the converter's and the metadata encoder's outputs. -/
def messageRow (pt pd mj : Message → String) (m : Message) : List Value :=
  [Value.uuid m.uuid, Value.str (pt m), Value.bytes (pd m),
   Value.json (mj m), Value.time m.createdAt]

theorem prepareDataGo_success (convert : String → Except GoError (String × String))
    (marshal : List (String × String) → Except GoError String) :
    ∀ (msgs : List Message) (pt pd mj : Message → String),
      (∀ m ∈ msgs, convert m.payload = .ok (pt m, pd m)) →
      (∀ m ∈ msgs, marshal m.metadata = .ok (mj m)) →
      prepareDataGo convert marshal msgs =
        (.ok ((msgs.map (messageRow pt pd mj)).flatten), msgs.length) := by
  intro msgs pt pd mj
  induction msgs with
  | nil => intro _ _; rfl
  | cons m rest ih =>
    intro h1 h2
    have hc := h1 m (List.mem_cons_self _ _)
    have hm := h2 m (List.mem_cons_self _ _)
    have ihr := ih (fun x hx => h1 x (List.mem_cons_of_mem _ hx))
      (fun x hx => h2 x (List.mem_cons_of_mem _ hx))
    simp only [prepareDataGo, hc, hm, ihr, List.map_cons, List.flatten_cons]
    rfl

theorem messageRows_length (pt pd mj : Message → String) (msgs : List Message) :
    ((msgs.map (messageRow pt pd mj)).flatten).length = msgs.length * 5 := by
  induction msgs with
  | nil => rfl
  | cons m rest ih =>
    simp only [List.map_cons, List.flatten_cons, List.length_append, ih, List.length_cons]
    have h5 : (messageRow pt pd mj m).length = 5 := rfl
    rw [h5]
    ring

theorem prepareDataGo_failure (convert : String → Except GoError (String × String))
    (marshal : List (String × String) → Except GoError String) :
    ∀ (pre : List Message) (m : Message) (post : List Message) (e : GoError),
      (∀ m' ∈ pre, (∃ p, convert m'.payload = .ok p) ∧ ∃ j, marshal m'.metadata = .ok j) →
      (convert m.payload = .error e
        ∨ ((∃ p, convert m.payload = .ok p) ∧ marshal m.metadata = .error e)) →
      (prepareDataGo convert marshal (pre ++ m :: post)).1 = .error e := by
  intro pre
  induction pre with
  | nil =>
    intro m post e _ hfail
    rcases hfail with hconv | ⟨⟨p, hp⟩, hmar⟩
    · simp only [List.nil_append, prepareDataGo, hconv]
    · simp only [List.nil_append, prepareDataGo, hp, hmar]
  | cons a pre ih =>
    intro m post e hpre hfail
    obtain ⟨⟨pa, hpa⟩, ⟨ja, hja⟩⟩ := hpre a (List.mem_cons_self _ _)
    have ihr := ih m post e (fun x hx => hpre x (List.mem_cons_of_mem _ hx)) hfail
    simp only [List.cons_append, prepareDataGo, hpa, hja]
    rcases hrec : prepareDataGo convert marshal (pre ++ m :: post) with ⟨r, c⟩
    rw [hrec] at ihr
    simp only at ihr
    subst ihr
    rfl

/-- C7: on messages whose payload conversion and metadata encoding succeed,
`PrepareData` returns the flat vector of `len(messages) * len(columns)`
values, laid out per row in the declared column order
`(event_id, event_name, payload, metadata, created_at)`, invoking the
payload converter exactly once per message; and if the converter or the
metadata encoding fails for some message (each earlier message succeeding),
`PrepareData` returns that error and no vector. -/
theorem prepareData_spec (convert : String → Except GoError (String × String))
    (marshal : List (String × String) → Except GoError String) :
    (∀ (msgs : List Message) (pt pd mj : Message → String),
        (∀ m ∈ msgs, convert m.payload = .ok (pt m, pd m)) →
        (∀ m ∈ msgs, marshal m.metadata = .ok (mj m)) →
        PrepareData convert marshal msgs = .ok ((msgs.map (messageRow pt pd mj)).flatten)
        ∧ (∀ v, PrepareData convert marshal msgs = .ok v →
            v.length = msgs.length * ColumnNames.length)
        ∧ prepareDataConvertCalls convert marshal msgs = msgs.length)
    ∧ (∀ (pre : List Message) (m : Message) (post : List Message) (e : GoError),
        (∀ m' ∈ pre, (∃ p, convert m'.payload = .ok p) ∧ ∃ j, marshal m'.metadata = .ok j) →
        (convert m.payload = .error e
          ∨ ((∃ p, convert m.payload = .ok p) ∧ marshal m.metadata = .error e)) →
        PrepareData convert marshal (pre ++ m :: post) = .error e) := by
  constructor
  · intro msgs pt pd mj h1 h2
    have h := prepareDataGo_success convert marshal msgs pt pd mj h1 h2
    refine ⟨?_, ?_, ?_⟩
    · rw [PrepareData, h]
    · intro v hv
      rw [PrepareData, h] at hv
      have hv' := (Except.ok.injEq _ _).mp hv
      subst hv'
      simpa [ColumnNames] using messageRows_length pt pd mj msgs
    · rw [prepareDataConvertCalls, h]
  · intro pre m post e hpre hfail
    exact prepareDataGo_failure convert marshal pre m post e hpre hfail

/-- C7 witness: `PrepareData` evaluated on one concrete message. -/
theorem prepareData_spec_witness :
    PrepareData (fun p => .ok (p ++ "T", p ++ "D")) (fun _ => .ok "meta")
        [{ uuid := "u1", payload := "pay", metadata := [("k", "v")], createdAt := 7 }]
      = .ok [Value.uuid "u1", Value.str "payT", Value.bytes "payD",
             Value.json "meta", Value.time 7]
    ∧ prepareDataConvertCalls (fun p => .ok (p ++ "T", p ++ "D")) (fun _ => .ok "meta")
        [{ uuid := "u1", payload := "pay", metadata := [("k", "v")], createdAt := 7 }] = 1 := by
  have h := (prepareData_spec (fun p => .ok (p ++ "T", p ++ "D")) (fun _ => .ok "meta")).1
    [{ uuid := "u1", payload := "pay", metadata := [("k", "v")], createdAt := 7 }]
    (fun m => m.payload ++ "T") (fun m => m.payload ++ "D") (fun _ => "meta")
    (fun _ _ => rfl) (fun _ _ => rfl)
  exact ⟨by rw [h.1]; rfl, h.2.2⟩

/-! ## Event store: AppendTo (src/eventstore/postgres/eventstore.go) -/

/-- State of one event stream table: its rows, each a list of column
values. -/
structure EventTable where
  rows : List (List Value)
  deriving DecidableEq, Repr

/-- Split the flat parameter vector into rows of `lenCols` values, the row
shape the INSERT's placeholder template dictates. -/
def chunkRows (lenCols : Nat) (l : List Value) : List (List Value) :=
  if _hstop : l = [] ∨ lenCols = 0 then []
  else l.take lenCols :: chunkRows lenCols (l.drop lenCols)
termination_by l.length
decreasing_by
  push_neg at _hstop
  rcases l with _ | ⟨a, l⟩
  · exact absurd rfl _hstop.1
  · simp only [List.length_drop, List.length_cons]
    omega

/-- One step of the placeholder-building loop of
`EventStore.prepareInsertValues` (lines 229-241): at index `i` it writes the
row separator or the comma, then `$` and the 1-based parameter index. -/
def placeholderStep (lenCols i : Nat) : String :=
  (if i % lenCols = 0 then (if i = 0 then "(" else "),(") else ",")
    ++ "$" ++ toString (i + 1)

/-- Embedding of `EventStore.prepareInsertValues` (lines 217-246): the empty
string for zero messages, otherwise the `($1,...,$k),($k+1,...)...` template
with `messageCount * lenCols` placeholders. The memoization map is dropped:
it caches exactly this pure function of the message count. -/
def prepareInsertValues (messageCount lenCols : Nat) : String :=
  if messageCount = 0 then ""
  else String.join (((List.range (messageCount * lenCols)).map (placeholderStep lenCols))) ++ ")"

/-- Models PostgreSQL executing the INSERT statement that `AppendTo` builds:
a statement whose VALUES clause is empty (`INSERT ... VALUES ;`, which is
what an empty placeholder template produces) is rejected with a syntax
error; otherwise the flat parameter vector is inserted row-wise. -/
def execInsert (db : EventTable) (values : String) (data : List Value) (lenCols : Nat) :
    EventTable × Option GoError :=
  if values = "" then (db, some (.db "pq: syntax error at or near \";\""))
  else ({ rows := db.rows ++ chunkRows lenCols data }, none)

/-- Embedding of `EventStore.AppendTo` (lines 169-215): resolve the table
name, prepare the data, build the placeholder template and execute the
INSERT. The source has no special case for an empty message list. -/
def AppendTo (convert : String → Except GoError (String × String))
    (marshal : List (String × String) → Except GoError String)
    (db : EventTable) (streamName : String) (streamEvents : List Message) :
    EventTable × Option GoError :=
  match tableNameOf streamName with
  | .error e => (db, some e)
  | .ok _ =>
    match PrepareData convert marshal streamEvents with
    | .error e => (db, some e)
    | .ok data =>
      execInsert db (prepareInsertValues streamEvents.length ColumnNames.length) data
        ColumnNames.length

/-- C2 (code bug): called with an empty message list, `AppendTo` does not
short-circuit: the placeholder template is the empty string, the generated
statement is `INSERT ... VALUES ;`, and the database rejects it, so
`AppendTo` returns a syntax error instead of the no-op success the spec
requires (the table state is unchanged only because the statement fails). -/
theorem appendTo_empty_not_noop :
    ∀ (convert : String → Except GoError (String × String))
      (marshal : List (String × String) → Except GoError String) (db : EventTable),
      prepareInsertValues 0 ColumnNames.length = ""
      ∧ AppendTo convert marshal db "orders" [] =
          (db, some (GoError.db "pq: syntax error at or near \";\"")) := by
  intro convert marshal db
  exact ⟨rfl, rfl⟩

/-! ## Event store: Create (src/eventstore/postgres/eventstore.go lines 80-116) -/

/-- State of the database schema as `Create` affects it: the DDL statements
whose effects have been applied and are visible to other connections. -/
structure SchemaDB where
  applied : List String
  deriving DecidableEq, Repr

/-- Embedding of the DDL loop of `EventStore.Create` (lines 95-115). The
source begins a transaction `tx` but executes every statement with
`e.db.ExecContext`, i.e. on the raw connection in auto-commit mode, so each
successful statement's effect is applied immediately; `tx.Rollback` only
discards the transaction, which holds no statements, and `tx.Commit` commits
that empty transaction. `beh q` is the database's outcome for statement `q`
(`none` = success), `rollbackErr` the outcome of `tx.Rollback` and
`commitErr` the outcome of `tx.Commit`. -/
def createLoop (beh : String → Option GoError) (rollbackErr commitErr : Option GoError)
    (db : SchemaDB) : List String → SchemaDB × Option GoError
  | [] => (db, commitErr)
  | q :: rest =>
    match beh q with
    | none => createLoop beh rollbackErr commitErr { applied := db.applied ++ [q] } rest
    | some e =>
      match rollbackErr with
      | none => (db, some e)
      | some re => (db, some (.composite re e))

/-- Embedding of `EventStore.Create` (lines 80-116): resolve the table name,
refuse an existing table, refuse an empty statement list, begin the
transaction (`beginErr` its outcome) and run the DDL loop. `queries` stands
for `persistenceStrategy.CreateSchema(tableName)` and `tableExists` for the
information-schema probe. -/
def Create (beh : String → Option GoError) (beginErr rollbackErr commitErr : Option GoError)
    (tableExists : Bool) (queries : List String) (db : SchemaDB) (streamName : String) :
    SchemaDB × Option GoError :=
  match tableNameOf streamName with
  | .error e => (db, some e)
  | .ok _ =>
    if tableExists then (db, some .tableAlreadyExists)
    else if queries.length = 0 then (db, some .noCreateTableQueries)
    else
      match beginErr with
      | some e => (db, some e)
      | none => createLoop beh rollbackErr commitErr db queries

/-- C3 (code bug): when the second of two DDL statements fails, `Create`
returns the original error (or, if the rollback also fails, the composite
error naming both), but the effect of the first statement is NOT rolled
back: the statements ran on the raw connection, not on the transaction that
is rolled back, so the schema state still contains the first statement. -/
theorem create_does_not_roll_back_ddl :
    (Create (fun q => if q = "ddl-index" then some (.db "index failure") else none)
        none none none false ["ddl-table", "ddl-index"] { applied := [] } "orders"
      = ({ applied := ["ddl-table"] }, some (.db "index failure")))
    ∧ (Create (fun q => if q = "ddl-index" then some (.db "index failure") else none)
        none (some (.db "rollback failure")) none false ["ddl-table", "ddl-index"]
        { applied := [] } "orders"
      = ({ applied := ["ddl-table"] },
          some (.composite (.db "rollback failure") (.db "index failure"))))
    ∧ ({ applied := ["ddl-table"] } : SchemaDB) ≠ { applied := [] } := by
  exact ⟨rfl, rfl, by decide⟩

/-! ## ReadEventStream (src/eventstore.go lines 56-74) -/

/-- The `for stream.Next()` loop of `ReadEventStream`: `items` holds the
`Message()` results of the iterations for which `Next()` returned true, in
order. A failing `Message()` call aborts the loop with that error and the
accumulated slices are discarded. -/
def readLoop : List (Except GoError (Message × Int)) → Except GoError (List Message × List Int)
  | [] => .ok ([], [])
  | .error e :: _ => .error e
  | .ok (m, n) :: rest =>
    match readLoop rest with
    | .error e => .error e
    | .ok (ms, ns) => .ok (m :: ms, n :: ns)

/-- Embedding of `ReadEventStream` (lines 56-74): drain the stream, then
consult `stream.Err()` (`finalErr`, what `Err()` returns once `Next()` has
returned false) and surface it; otherwise return the collected messages and
numbers. -/
def ReadEventStream (items : List (Except GoError (Message × Int)))
    (finalErr : Option GoError) : Except GoError (List Message × List Int) :=
  match readLoop items with
  | .error e => .error e
  | .ok out =>
    match finalErr with
    | some e => .error e
    | none => .ok out

theorem readLoop_map_ok (pairs : List (Message × Int)) :
    readLoop (pairs.map Except.ok) = .ok (pairs.map Prod.fst, pairs.map Prod.snd) := by
  induction pairs with
  | nil => rfl
  | cons p rest ih =>
    rcases p with ⟨m, n⟩
    simp only [List.map_cons, readLoop, ih]

theorem readLoop_error_iff (items : List (Except GoError (Message × Int))) :
    (∃ e, readLoop items = .error e) ↔ (∃ e, Except.error e ∈ items) := by
  induction items with
  | nil => simp [readLoop]
  | cons it rest ih =>
    rcases it with e | ⟨m, n⟩
    · constructor
      · intro _
        exact ⟨e, List.mem_cons_self _ _⟩
      · intro _
        exact ⟨e, rfl⟩
    · rcases hr : readLoop rest with e | ⟨ms, ns⟩
      · constructor
        · intro _
          obtain ⟨e', he'⟩ := ih.mp ⟨e, hr⟩
          exact ⟨e', List.mem_cons_of_mem _ he'⟩
        · intro _
          exact ⟨e, by simp only [readLoop, hr]⟩
      · constructor
        · intro ⟨e', he'⟩
          simp only [readLoop, hr] at he'
          exact Except.noConfusion he'
        · intro ⟨e', he'⟩
          rcases List.mem_cons.mp he' with h | h
          · exact absurd h.symm (by simp)
          · obtain ⟨e'', he''⟩ := ih.mpr ⟨e', h⟩
            rw [he''] at hr
            exact Except.noConfusion hr

/-- C8: `ReadEventStream` returns exactly the messages and numbers yielded
by the successive `Next`/`Message` calls in order, and it returns an error
precisely when some `Message` call fails or the stream's `Err` is non-nil
after the loop ends: the stream error is surfaced, never dropped. -/
theorem readEventStream_drains_and_surfaces_err :
    (∀ pairs : List (Message × Int),
        ReadEventStream (pairs.map Except.ok) none
          = .ok (pairs.map Prod.fst, pairs.map Prod.snd))
    ∧ (∀ (items : List (Except GoError (Message × Int))) (finalErr : Option GoError),
        (∃ e, ReadEventStream items finalErr = .error e)
          ↔ ((∃ e, Except.error e ∈ items) ∨ finalErr.isSome)) := by
  constructor
  · intro pairs
    rw [ReadEventStream, readLoop_map_ok]
  · intro items finalErr
    rcases hr : readLoop items with e | out
    · simp only [ReadEventStream, hr]
      constructor
      · intro _
        exact Or.inl ((readLoop_error_iff items).mp ⟨e, hr⟩)
      · intro _
        exact ⟨e, rfl⟩
    · rcases hf : finalErr with _ | e
      · simp only [ReadEventStream, hr]
        constructor
        · intro ⟨e', he'⟩
          exact Except.noConfusion he'
        · intro h
          rcases h with ⟨e', he'⟩ | hsome
          · obtain ⟨e'', he''⟩ := (readLoop_error_iff items).mpr ⟨e', he'⟩
            rw [he''] at hr
            exact Except.noConfusion hr
          · exact absurd hsome (by simp)
      · simp only [ReadEventStream, hr]
        constructor
        · intro _
          exact Or.inr rfl
        · intro _
          exact ⟨e, rfl⟩

/-! ## Example aggregate: BankAccount (src/example/aggregate/main.go) -/

/-- The modulus of Go's 64-bit `uint`. -/
def uintW : Nat := 2 ^ 64

/-- Go `uint` addition (`+=`), wrapping modulo `2^64`. -/
def uintAdd (a b : Nat) : Nat := (a + b) % uintW

/-- Go `uint` subtraction (`-=`), wrapping modulo `2^64`. -/
def uintSub (a b : Nat) : Nat := (a + uintW - b % uintW) % uintW

/-- The domain events of the example: `AccountOpened`, `AccountCredited`
and `AccountDebited`. -/
inductive BankEvent where
  | accountOpened (accountID : String)
  | accountCredited (amount : Nat)
  | accountDebited (amount : Nat)
  deriving DecidableEq, Repr

/-- Modelled from the spec: the `aggregate.Changed` envelope recorded by
`RecordChange` ("constructs a Changed envelope, assigns
`_aggregate_version = currentVersion+1`"), whose Go definition is not among
the given files. Only the payload and version are modelled. -/
structure Changed where
  payload : BankEvent
  version : Nat
  deriving DecidableEq, Repr

/-- The `BankAccount` aggregate: its identifier, `uint` balance, and the
`aggregate.BaseRoot` bookkeeping (current version, recorded changes). -/
structure BankAccount where
  accountID : String
  balance : Nat
  version : Nat
  recorded : List Changed
  deriving DecidableEq, Repr

/-- Embedding of `BankAccount.Apply` (lines 80-89): switch on the payload
type and mutate the state; unknown payloads leave the account unchanged. -/
def BankAccount.Apply (b : BankAccount) (change : Changed) : BankAccount :=
  match change.payload with
  | .accountOpened id => { b with accountID := id }
  | .accountCredited amount => { b with balance := uintAdd b.balance amount }
  | .accountDebited amount => { b with balance := uintSub b.balance amount }

/-- Modelled from the spec: `aggregate.RecordChange` ("constructs a Changed
envelope, assigns `_aggregate_version = currentVersion+1`, appends it, and
invokes `apply`"), whose Go definition is not among the given files. -/
def RecordChange (b : BankAccount) (payload : BankEvent) : BankAccount :=
  let change : Changed := { payload := payload, version := b.version + 1 }
  BankAccount.Apply
    { b with version := b.version + 1, recorded := b.recorded ++ [change] } change

/-- Embedding of `OpenBankAccount` (lines 62-72) for a given generated
account identifier. -/
def OpenBankAccount (accountID : String) : BankAccount :=
  RecordChange { accountID := accountID, balance := 0, version := 0, recorded := [] }
    (.accountOpened accountID)

/-- Embedding of `BankAccount.Deposit` (lines 92-98): zero amounts are a
no-op success. -/
def BankAccount.Deposit (b : BankAccount) (amount : Nat) : Except GoError BankAccount :=
  if amount = 0 then .ok b
  else .ok (RecordChange b (.accountCredited amount))

/-- Embedding of `BankAccount.Withdraw` (lines 101-107): refuse amounts over
the balance with `ErrInsufficientMoney`. -/
def BankAccount.Withdraw (b : BankAccount) (amount : Nat) : Except GoError BankAccount :=
  if amount > b.balance then .error .insufficientMoney
  else .ok (RecordChange b (.accountDebited amount))

/-- Embedding of `BankAccount.Balance` (lines 110-112). -/
def BankAccount.Balance (b : BankAccount) : Nat := b.balance

/-- The zero value of `BankAccount`, the state a freshly allocated aggregate
is rehydrated from. -/
def freshBankAccount : BankAccount :=
  { accountID := "", balance := 0, version := 0, recorded := [] }

/-- Rehydration: replay a list of recorded changes through `Apply` starting
from the fresh account. -/
def replayBankAccount (changes : List Changed) : BankAccount :=
  changes.foldl BankAccount.Apply freshBankAccount

/-- C9: replaying `AccountOpened, AccountCredited 100, AccountDebited 10,
AccountDebited 20` through `Apply` from a fresh account yields balance 70,
and the same balance results from `OpenBankAccount`, `Deposit 100`,
`Withdraw 10`, `Withdraw 20` with every call succeeding. -/
theorem bankAccount_scenario_balance :
    (replayBankAccount
        [{ payload := .accountOpened "acc-1", version := 1 },
         { payload := .accountCredited 100, version := 2 },
         { payload := .accountDebited 10, version := 3 },
         { payload := .accountDebited 20, version := 4 }]).Balance = 70
    ∧ ∃ b₁ b₂ b₃,
        (OpenBankAccount "acc-1").Deposit 100 = .ok b₁
        ∧ b₁.Withdraw 10 = .ok b₂
        ∧ b₂.Withdraw 20 = .ok b₃
        ∧ b₃.Balance = 70 := by
  refine ⟨rfl, _, _, _, rfl, rfl, rfl, rfl⟩

/-! ## Event store: Load (src/eventstore/postgres/eventstore.go lines 129-166) -/

/-- A metadata matcher constraint: field, operator rendering and value, as
`matchConditions` consumes them in the matcher's insertion order. -/
structure Constraint where
  field : String
  op : String
  value : String
  deriving DecidableEq, Repr

/-- A positionally bound query parameter: a matcher value or the
`fromNumber` bound. -/
inductive Param where
  | value (v : String)
  | num (n : Int)
  deriving DecidableEq, Repr

/-- The single-quote character, written by code point to keep string
literals quote-free. -/
def singleQuote : String := (Char.ofNat 39).toString

/-- Modelled from the spec: the `quoteString` helper used by
`matchConditions`, whose definition is not among the given files; per the
spec's fragment shape `metadata ->> '<field>' <op> $n` it wraps the field in
SQL single quotes. -/
def quoteString (s : String) : String := singleQuote ++ s ++ singleQuote

/-- Embedding of `matchConditions` (lines 259-273) with its running
parameter counter `i`, incremented before each use so placeholders are
1-based. -/
def matchConditionsGo : List Constraint → Nat → List String × List Param
  | [], _ => ([], [])
  | c :: rest, i =>
    let cond := "metadata ->> " ++ quoteString c.field ++ " " ++ c.op
      ++ " $" ++ toString (i + 1)
    let r := matchConditionsGo rest (i + 1)
    (cond :: r.1, Param.value c.value :: r.2)

/-- Embedding of `matchConditions`: a nil matcher is the empty constraint
list. -/
def matchConditions (cs : List Constraint) : List String × List Param :=
  matchConditionsGo cs 0

/-- Embedding of the query `EventStore.Load` builds (lines 129-166): the
matcher conditions, then `no >= $<len(params)>` once `fromNumber` has been
appended to the parameters, joined with ` AND `, ordered by `no`, with a
LIMIT clause exactly when `count` is non-nil. -/
def LoadQuery (streamName : String) (fromNumber : Int) (count : Option Nat)
    (cs : List Constraint) : Except GoError (String × List Param) :=
  match tableNameOf streamName with
  | .error e => .error e
  | .ok tbl =>
    .ok ("SELECT * FROM " ++ tbl ++ " WHERE "
        ++ String.intercalate " AND "
            ((matchConditions cs).1
              ++ ["no >= $" ++ toString ((matchConditions cs).2 ++ [Param.num fromNumber]).length])
        ++ " ORDER BY no "
        ++ (match count with | none => "" | some n => "LIMIT " ++ toString n),
      (matchConditions cs).2 ++ [Param.num fromNumber])

/-- The compiled predicate fragment for one constraint bound to placeholder
`$n`, as the spec states it: `metadata ->> '<field>' <op> $n`. -/
def constraintFragment (c : Constraint) (n : Nat) : String :=
  "metadata ->> " ++ quoteString c.field ++ " " ++ c.op ++ " $" ++ toString n

theorem matchConditionsGo_spec :
    ∀ (cs : List Constraint) (i : Nat),
      matchConditionsGo cs i =
        ((List.enumFrom i cs).map (fun p => constraintFragment p.2 (p.1 + 1)),
          cs.map fun c => Param.value c.value) := by
  intro cs
  induction cs with
  | nil => intro i; rfl
  | cons c rest ih =>
    intro i
    simp only [matchConditionsGo, List.enumFrom, List.map_cons, ih (i + 1)]
    rfl

/-- C4: for a matcher with `k` constraints, `Load` builds a query whose
WHERE clause is the AND of one `metadata ->> '<field>' <op> $n` fragment per
constraint, `n = 1..k` in the matcher's iteration order, plus `no >= $k+1`;
the `k` matcher values are bound first and `fromNumber` last; rows are
ordered by `no`; and a LIMIT clause is present exactly when `count` is
non-nil. -/
theorem load_builds_query (streamName tbl : String) (fromNumber : Int)
    (count : Option Nat) (cs : List Constraint)
    (htn : tableNameOf streamName = .ok tbl) :
    LoadQuery streamName fromNumber count cs =
      .ok ("SELECT * FROM " ++ tbl ++ " WHERE "
          ++ String.intercalate " AND "
              ((cs.enum.map fun p => constraintFragment p.2 (p.1 + 1))
                ++ ["no >= $" ++ toString (cs.length + 1)])
          ++ " ORDER BY no "
          ++ (match count with | none => "" | some n => "LIMIT " ++ toString n),
        (cs.map fun c => Param.value c.value) ++ [Param.num fromNumber]) := by
  simp only [LoadQuery, htn, matchConditions, matchConditionsGo_spec cs 0,
    List.length_append, List.length_map, List.length_cons, List.length_nil]
  rfl

/-- C4 witness: the query built for one concrete matcher constraint,
`fromNumber = 5` and `count = 10` on stream `orders`. -/
theorem load_builds_query_witness :
    LoadQuery "orders" 5 (some 10) [{ field := "region", op := "=", value := "EU" }] =
      .ok ("SELECT * FROM events_orders WHERE metadata ->> " ++ singleQuote ++ "region"
          ++ singleQuote ++ " = $1 AND no >= $2 ORDER BY no LIMIT 10",
        [Param.value "EU", Param.num 5]) := by
  rw [load_builds_query "orders" "events_orders" 5 (some 10)
    [{ field := "region", op := "=", value := "EU" }] rfl]
  rfl

end Goengine
